import Mathlib

/-!
Verification of the ballast-water exchange simulator (src/main.py).

The core of the program is the per-tick state update: `update_concentration`
perturbs a 2-D concentration field by per-cell turbulence noise scaled by the
flow rate, decays it by the exchange-efficiency factor and clips every cell to
[0, 1]; `run_simulation` increments the time-step counter, updates the field
and appends entries to three metric series, de-duplicating the flow-rate
series against its last entry.

Embedding choices:
* Python floats are modelled as rationals (`ℚ`).
* The 100×100 numpy array is modelled as the flat list of its 10000 cells;
  all array operations in the source are cell-wise, so the flattening is
  faithful.
* The per-cell noise drawn internally by
  `np.random.uniform(-0.05, 0.05, concentration.shape)` is an explicit list
  parameter, so theorems quantify over every possible draw.
* Streamlit session state (`st.session_state`) is the `SessionState`
  structure; the sidebar parameters read by a tick become the fields of a
  `TickInput`.
-/

namespace Ballast

/-- `np.clip a lo hi`: clip a value to the interval `[lo, hi]`
(source line 42 uses `np.clip(concentration, 0, 1)`). -/
def clip (a lo hi : ℚ) : ℚ := min hi (max a lo)

/-- `np.mean` over the cells of a field, modelled as sum divided by length
(ℚ-division by zero yields 0 for the empty field). Source line 58. -/
def mean (l : List ℚ) : ℚ := l.sum / l.length

/-- `update_concentration` (src/main.py lines 32-43): add `flow * noise` to
each cell, multiply every cell by `(1 - efficiency / 100)`, clip every cell
to `[0, 1]`. -/
def update_concentration (concentration : List ℚ) (flow efficiency : ℚ)
    (noise : List ℚ) : List ℚ :=
  let withNoise := List.zipWith (fun c n => c + flow * n) concentration noise
  let decayed := withNoise.map (fun c => c * (1 - efficiency / 100))
  decayed.map (fun c => clip c 0 1)

/-- The sidebar parameters supplied to one tick (src/main.py lines 13-17),
together with the noise that tick draws (line 37). -/
structure TickInput where
  flow_rate : ℚ
  exchange_efficiency : ℚ
  tank_length : ℚ
  tank_width : ℚ
  noise : List ℚ

/-- The session state (src/main.py lines 19-29). -/
structure SessionState where
  concentration : List ℚ
  time_step : ℕ
  efficiency_over_time : List (ℕ × ℚ)
  flow_rate_impact : List (ℚ × ℚ)
  tank_area_impact : List (ℚ × ℚ)

/-- The initial session state (src/main.py lines 20-29): all-ones 100×100
field, counter 0, empty series. -/
def initState : SessionState where
  concentration := List.replicate 10000 1
  time_step := 0
  efficiency_over_time := []
  flow_rate_impact := []
  tank_area_impact := []

/-- One tick of `run_simulation` (src/main.py lines 47-67): increment
`time_step`, update the concentration field, compute the average
concentration once, append `(time_step, avg)` to `efficiency_over_time`
unconditionally, append `(flow_rate, avg)` to `flow_rate_impact` only when
the series is empty or its last entry's flow rate differs from the current
one (`if not ... or ...[-1][0] != flow_rate`, lines 62-63), and append
`(tank_area, avg)` to `tank_area_impact` unconditionally. -/
def run_simulation (flow_rate exchange_efficiency tank_length tank_width : ℚ)
    (noise : List ℚ) (st : SessionState) : SessionState :=
  let time_step := st.time_step + 1
  let concentration :=
    update_concentration st.concentration flow_rate exchange_efficiency noise
  let avg_concentration := mean concentration
  let efficiency_over_time :=
    st.efficiency_over_time ++ [(time_step, avg_concentration)]
  let flow_rate_impact :=
    if st.flow_rate_impact = [] ∨
        st.flow_rate_impact.getLast?.map Prod.fst ≠ some flow_rate then
      st.flow_rate_impact ++ [(flow_rate, avg_concentration)]
    else
      st.flow_rate_impact
  let tank_area := tank_length * tank_width
  let tank_area_impact := st.tank_area_impact ++ [(tank_area, avg_concentration)]
  { concentration := concentration
    time_step := time_step
    efficiency_over_time := efficiency_over_time
    flow_rate_impact := flow_rate_impact
    tank_area_impact := tank_area_impact }

/-- Run `run_simulation` once per element of `inputs`, in order: the external
scheduler re-running the fragment each second (src/main.py line 46). -/
def runTicks (inputs : List TickInput) (st : SessionState) : SessionState :=
  inputs.foldl
    (fun s i =>
      run_simulation i.flow_rate i.exchange_efficiency i.tank_length
        i.tank_width i.noise s)
    st

/-- The update step as the spec's words describe it (spec §4.1, steps 2-4):
cell-wise `clip ((cell + flowRate * noise) * (1 - efficiencyPct / 100)) 0 1`.
Used only to compare against `update_concentration`. -/
def update_concentration_spec (concentration : List ℚ) (flow efficiency : ℚ)
    (noise : List ℚ) : List ℚ :=
  List.zipWith (fun c n => clip ((c + flow * n) * (1 - efficiency / 100)) 0 1)
    concentration noise

/-- Whether a rational lies in the unit interval, as a boolean. -/
def inUnit (x : ℚ) : Bool := decide (0 ≤ x) && decide (x ≤ 1)

/-- Number of value changes along a list of flow rates, starting from a
previous value `v`: counts the positions whose flow rate differs from the
one immediately before it. -/
def countChanges (v : ℚ) : List ℚ → ℕ
  | [] => 0
  | f :: rest => (if f ≠ v then 1 else 0) + countChanges f rest

/-! ### Helper lemmas -/

lemma initState_concentration :
    initState.concentration = List.replicate 10000 1 := rfl

lemma initState_time_step : initState.time_step = 0 := rfl

lemma initState_eff : initState.efficiency_over_time = [] := rfl

lemma initState_fri : initState.flow_rate_impact = [] := rfl

lemma initState_tai : initState.tank_area_impact = [] := rfl

lemma clip_nonneg (a : ℚ) : 0 ≤ clip a 0 1 := by
  unfold clip
  simp [le_min_iff, le_max_iff]

lemma clip_le_one (a : ℚ) : clip a 0 1 ≤ 1 :=
  min_le_left _ _

lemma clip_eq_self {a : ℚ} (h0 : 0 ≤ a) (h1 : a ≤ 1) : clip a 0 1 = a := by
  unfold clip
  rw [max_eq_left h0, min_eq_right h1]

lemma mem_update_bounds (c : List ℚ) (f e : ℚ) (ns : List ℚ) :
    ∀ x ∈ update_concentration c f e ns, 0 ≤ x ∧ x ≤ 1 := by
  intro x hx
  unfold update_concentration at hx
  simp only [List.mem_map] at hx
  obtain ⟨y, -, rfl⟩ := hx
  exact ⟨clip_nonneg y, clip_le_one y⟩

lemma mean_bounds {l : List ℚ} (h : ∀ x ∈ l, 0 ≤ x ∧ x ≤ 1) :
    0 ≤ mean l ∧ mean l ≤ 1 := by
  rcases l.eq_nil_or_concat with rfl | ⟨l', a, rfl⟩
  · simp [mean]
  · simp only [List.concat_eq_append] at h ⊢
    have hlen : (0 : ℚ) < ((l' ++ [a]).length : ℚ) := by
      have : 0 < (l' ++ [a]).length := by simp
      exact_mod_cast this
    have hsum0 : 0 ≤ (l' ++ [a]).sum :=
      List.sum_nonneg fun x hx => (h x hx).1
    have hsum1 : (l' ++ [a]).sum ≤ (l' ++ [a]).length • (1 : ℚ) :=
      List.sum_le_card_nsmul _ 1 fun x hx => (h x hx).2
    constructor
    · exact div_nonneg hsum0 hlen.le
    · rw [mean, div_le_one hlen]
      simpa using hsum1

lemma mean_update_bounds (c : List ℚ) (f e : ℚ) (ns : List ℚ) :
    0 ≤ mean (update_concentration c f e ns) ∧
      mean (update_concentration c f e ns) ≤ 1 :=
  mean_bounds (mem_update_bounds c f e ns)

/-! ### Unfolding lemmas for `run_simulation` and `runTicks` -/

lemma run_simulation_time_step (f e tl tw : ℚ) (ns : List ℚ) (st : SessionState) :
    (run_simulation f e tl tw ns st).time_step = st.time_step + 1 := rfl

lemma run_simulation_concentration (f e tl tw : ℚ) (ns : List ℚ)
    (st : SessionState) :
    (run_simulation f e tl tw ns st).concentration =
      update_concentration st.concentration f e ns := rfl

lemma run_simulation_eff (f e tl tw : ℚ) (ns : List ℚ) (st : SessionState) :
    (run_simulation f e tl tw ns st).efficiency_over_time =
      st.efficiency_over_time ++
        [(st.time_step + 1, mean (update_concentration st.concentration f e ns))] :=
  rfl

lemma run_simulation_tai (f e tl tw : ℚ) (ns : List ℚ) (st : SessionState) :
    (run_simulation f e tl tw ns st).tank_area_impact =
      st.tank_area_impact ++
        [(tl * tw, mean (update_concentration st.concentration f e ns))] :=
  rfl

lemma run_simulation_fri (f e tl tw : ℚ) (ns : List ℚ) (st : SessionState) :
    (run_simulation f e tl tw ns st).flow_rate_impact =
      if st.flow_rate_impact = [] ∨
          st.flow_rate_impact.getLast?.map Prod.fst ≠ some f then
        st.flow_rate_impact ++
          [(f, mean (update_concentration st.concentration f e ns))]
      else
        st.flow_rate_impact :=
  rfl

/-- The guard on line 62 (`not fri or fri[-1][0] != flow_rate`) is equivalent
to comparing just against the optional last flow rate. -/
lemma fri_cond_iff (fri : List (ℚ × ℚ)) (f : ℚ) :
    (fri = [] ∨ fri.getLast?.map Prod.fst ≠ some f) ↔
      fri.getLast?.map Prod.fst ≠ some f := by
  constructor
  · rintro (rfl | h)
    · simp
    · exact h
  · exact Or.inr

lemma run_simulation_fri_last (f e tl tw : ℚ) (ns : List ℚ) (st : SessionState) :
    (run_simulation f e tl tw ns st).flow_rate_impact.getLast?.map Prod.fst =
      some f := by
  rw [run_simulation_fri]
  by_cases h : st.flow_rate_impact.getLast?.map Prod.fst = some f
  · rw [if_neg, h]
    rw [fri_cond_iff]
    simpa using h
  · rw [if_pos ((fri_cond_iff _ _).mpr h)]
    simp [List.getLast?_concat]

lemma run_simulation_fri_length (f e tl tw : ℚ) (ns : List ℚ)
    (st : SessionState) :
    (run_simulation f e tl tw ns st).flow_rate_impact.length =
      st.flow_rate_impact.length +
        (if st.flow_rate_impact.getLast?.map Prod.fst = some f then 0 else 1) := by
  rw [run_simulation_fri]
  by_cases h : st.flow_rate_impact.getLast?.map Prod.fst = some f
  · have hc : ¬(st.flow_rate_impact = [] ∨
        st.flow_rate_impact.getLast?.map Prod.fst ≠ some f) := by
      rw [fri_cond_iff]
      simpa using h
    rw [if_neg hc, if_pos h]
    simp
  · rw [if_pos ((fri_cond_iff _ _).mpr h), if_neg h]
    simp

lemma runTicks_nil (st : SessionState) : runTicks [] st = st := rfl

lemma runTicks_cons (i : TickInput) (inputs : List TickInput) (st : SessionState) :
    runTicks (i :: inputs) st =
      runTicks inputs
        (run_simulation i.flow_rate i.exchange_efficiency i.tank_length
          i.tank_width i.noise st) :=
  rfl

/-! ### Invariants of iterated ticks -/

lemma runTicks_eff_length (inputs : List TickInput) (st : SessionState) :
    (runTicks inputs st).efficiency_over_time.length =
      st.efficiency_over_time.length + inputs.length := by
  induction inputs generalizing st with
  | nil => simp [runTicks_nil]
  | cons i is ih =>
    rw [runTicks_cons, ih, run_simulation_eff]
    simp
    omega

lemma runTicks_tai_length (inputs : List TickInput) (st : SessionState) :
    (runTicks inputs st).tank_area_impact.length =
      st.tank_area_impact.length + inputs.length := by
  induction inputs generalizing st with
  | nil => simp [runTicks_nil]
  | cons i is ih =>
    rw [runTicks_cons, ih, run_simulation_tai]
    simp
    omega

lemma runTicks_time_step (inputs : List TickInput) (st : SessionState) :
    (runTicks inputs st).time_step = st.time_step + inputs.length := by
  induction inputs generalizing st with
  | nil => simp [runTicks_nil]
  | cons i is ih =>
    rw [runTicks_cons, ih, run_simulation_time_step]
    simp
    omega

lemma range'_cons (s n : ℕ) : List.range' s (n + 1) = s :: List.range' (s + 1) n :=
  rfl

lemma runTicks_eff_map (inputs : List TickInput) (st : SessionState) :
    (runTicks inputs st).efficiency_over_time.map Prod.fst =
      st.efficiency_over_time.map Prod.fst ++
        List.range' (st.time_step + 1) inputs.length := by
  induction inputs generalizing st with
  | nil => simp [runTicks_nil]
  | cons i is ih =>
    rw [runTicks_cons, ih, run_simulation_eff, run_simulation_time_step]
    simp only [List.length_cons]
    rw [range'_cons]
    simp

lemma countChanges_nil (v : ℚ) : countChanges v [] = 0 := rfl

lemma countChanges_cons (v f : ℚ) (rest : List ℚ) :
    countChanges v (f :: rest) =
      (if f ≠ v then 1 else 0) + countChanges f rest := rfl

lemma countChanges_le (v : ℚ) (l : List ℚ) : countChanges v l ≤ l.length := by
  induction l generalizing v with
  | nil => simp [countChanges_nil]
  | cons f rest ih =>
    have := ih f
    rw [countChanges_cons]
    simp only [List.length_cons]
    split <;> omega

lemma countChanges_eq_length_iff (v : ℚ) (l : List ℚ) :
    countChanges v l = l.length ↔ List.Chain' (· ≠ ·) (v :: l) := by
  induction l generalizing v with
  | nil => simp [countChanges_nil]
  | cons f rest ih =>
    rw [List.chain'_cons, ← ih f, countChanges_cons]
    by_cases hf : f = v
    · subst hf
      have := countChanges_le f rest
      simp
      omega
    · have hvf : v ≠ f := fun h => hf h.symm
      simp [hf, hvf]
      omega

lemma runTicks_fri_length_of_last (inputs : List TickInput) (st : SessionState)
    (v : ℚ) (h : st.flow_rate_impact.getLast?.map Prod.fst = some v) :
    (runTicks inputs st).flow_rate_impact.length =
      st.flow_rate_impact.length +
        countChanges v (inputs.map TickInput.flow_rate) := by
  induction inputs generalizing st v with
  | nil => simp [runTicks_nil, countChanges]
  | cons i is ih =>
    rw [runTicks_cons,
      ih _ i.flow_rate (run_simulation_fri_last _ _ _ _ _ _),
      run_simulation_fri_length, h]
    simp only [List.map_cons]
    rw [countChanges_cons]
    by_cases hf : i.flow_rate = v
    · simp [hf]
    · have : ¬ (some v = some i.flow_rate) := by
        simp
        exact fun hh => hf hh.symm
      simp [this, hf]
      omega

lemma runTicks_fri_le (inputs : List TickInput) (st : SessionState) :
    (runTicks inputs st).flow_rate_impact.length ≤
      st.flow_rate_impact.length + inputs.length := by
  induction inputs generalizing st with
  | nil => simp [runTicks_nil]
  | cons i is ih =>
    rw [runTicks_cons]
    calc (runTicks is _).flow_rate_impact.length
        ≤ _ := ih _
      _ ≤ st.flow_rate_impact.length + (i :: is).length := by
          rw [run_simulation_fri_length]
          simp only [List.length_cons]
          split <;> omega

lemma runTicks_fri_unchanged (inputs : List TickInput) (st : SessionState)
    (v : ℚ) (h : st.flow_rate_impact.getLast?.map Prod.fst = some v)
    (hall : ∀ i ∈ inputs, i.flow_rate = v) :
    (runTicks inputs st).flow_rate_impact = st.flow_rate_impact := by
  induction inputs generalizing st with
  | nil => simp [runTicks_nil]
  | cons i is ih =>
    have hf : i.flow_rate = v := hall i (List.mem_cons_self i is)
    have hc : ¬(st.flow_rate_impact = [] ∨
        st.flow_rate_impact.getLast?.map Prod.fst ≠ some i.flow_rate) := by
      rw [fri_cond_iff, hf]
      simpa using h
    rw [runTicks_cons,
      ih _ (by rw [run_simulation_fri_last, hf])
        (fun j hj => hall j (List.mem_cons_of_mem i hj)),
      run_simulation_fri, if_neg hc]

/-! ### Pointwise description of the update step -/

lemma update_nil_left (f e : ℚ) (ns : List ℚ) :
    update_concentration [] f e ns = [] := rfl

lemma update_nil_right (c : List ℚ) (f e : ℚ) :
    update_concentration c f e [] = [] := by
  cases c <;> rfl

lemma update_cons (x n f e : ℚ) (xs ns : List ℚ) :
    update_concentration (x :: xs) f e (n :: ns) =
      clip ((x + f * n) * (1 - e / 100)) 0 1 ::
        update_concentration xs f e ns := rfl

lemma update_id {c ns : List ℚ} (hlen : ns.length = c.length)
    (hc : ∀ x ∈ c, 0 ≤ x ∧ x ≤ 1) :
    update_concentration c 0 0 ns = c := by
  induction c generalizing ns with
  | nil => exact update_nil_left 0 0 ns
  | cons x xs ih =>
    cases ns with
    | nil => simp at hlen
    | cons n ns' =>
      rw [update_cons]
      have hx := hc x (List.mem_cons_self x xs)
      have hcell : (x + 0 * n) * (1 - 0 / 100) = x := by ring
      rw [hcell, clip_eq_self hx.1 hx.2,
        ih (by simpa using hlen) fun y hy => hc y (List.mem_cons_of_mem x hy)]

lemma mean_replicate_ones : mean (List.replicate 10000 (1 : ℚ)) = 1 := by
  rw [mean, List.sum_replicate]
  norm_num

/-! ### Preservation of the all-ones field under zero flow and efficiency -/

lemma runTicks_ones (inputs : List TickInput) (st : SessionState)
    (hst : st.concentration = List.replicate 10000 1)
    (hin : ∀ i ∈ inputs,
      i.flow_rate = 0 ∧ i.exchange_efficiency = 0 ∧ i.noise.length = 10000) :
    (runTicks inputs st).concentration = List.replicate 10000 1 ∧
      ∀ p ∈ (runTicks inputs st).efficiency_over_time,
        p ∈ st.efficiency_over_time ∨ p.2 = 1 := by
  induction inputs generalizing st with
  | nil => exact ⟨hst, fun p hp => Or.inl hp⟩
  | cons i is ih =>
    obtain ⟨hf, he, hn⟩ := hin i (List.mem_cons_self i is)
    have hupd : update_concentration st.concentration i.flow_rate
        i.exchange_efficiency i.noise = List.replicate 10000 1 := by
      rw [hst, hf, he]
      exact update_id (by rw [List.length_replicate]; exact hn) (by
        intro x hx
        rw [List.eq_of_mem_replicate hx]
        norm_num)
    rw [runTicks_cons]
    obtain ⟨h1, h2⟩ := ih
      (run_simulation i.flow_rate i.exchange_efficiency i.tank_length
        i.tank_width i.noise st)
      (by rw [run_simulation_concentration, hupd])
      (fun j hj => hin j (List.mem_cons_of_mem i hj))
    refine ⟨h1, fun p hp => ?_⟩
    rcases h2 p hp with hmem | hval
    · rw [run_simulation_eff] at hmem
      rcases List.mem_append.mp hmem with hold | hnew
      · exact Or.inl hold
      · refine Or.inr ?_
        have : p = (st.time_step + 1,
            mean (update_concentration st.concentration i.flow_rate
              i.exchange_efficiency i.noise)) := by simpa using hnew
        rw [this]
        rw [hupd]
        exact mean_replicate_ones
    · exact Or.inr hval

/-! ### All recorded averages lie in the unit interval -/

lemma runTicks_series_bounds (inputs : List TickInput) (st : SessionState)
    (h1 : ∀ p ∈ st.efficiency_over_time, 0 ≤ p.2 ∧ p.2 ≤ 1)
    (h2 : ∀ p ∈ st.flow_rate_impact, 0 ≤ p.2 ∧ p.2 ≤ 1)
    (h3 : ∀ p ∈ st.tank_area_impact, 0 ≤ p.2 ∧ p.2 ≤ 1) :
    (∀ p ∈ (runTicks inputs st).efficiency_over_time, 0 ≤ p.2 ∧ p.2 ≤ 1) ∧
      (∀ p ∈ (runTicks inputs st).flow_rate_impact, 0 ≤ p.2 ∧ p.2 ≤ 1) ∧
      (∀ p ∈ (runTicks inputs st).tank_area_impact, 0 ≤ p.2 ∧ p.2 ≤ 1) := by
  induction inputs generalizing st with
  | nil => exact ⟨h1, h2, h3⟩
  | cons i is ih =>
    rw [runTicks_cons]
    have hm := mean_update_bounds st.concentration i.flow_rate
      i.exchange_efficiency i.noise
    refine ih _ ?_ ?_ ?_
    · rw [run_simulation_eff]
      intro p hp
      rcases List.mem_append.mp hp with hold | hnew
      · exact h1 p hold
      · have : p = (st.time_step + 1, mean (update_concentration
            st.concentration i.flow_rate i.exchange_efficiency i.noise)) := by
          simpa using hnew
        rw [this]
        exact hm
    · rw [run_simulation_fri]
      split
      · intro p hp
        rcases List.mem_append.mp hp with hold | hnew
        · exact h2 p hold
        · have : p = (i.flow_rate, mean (update_concentration
              st.concentration i.flow_rate i.exchange_efficiency i.noise)) := by
            simpa using hnew
          rw [this]
          exact hm
      · exact h2
    · rw [run_simulation_tai]
      intro p hp
      rcases List.mem_append.mp hp with hold | hnew
      · exact h3 p hold
      · have : p = (i.tank_length * i.tank_width, mean (update_concentration
            st.concentration i.flow_rate i.exchange_efficiency i.noise)) := by
          simpa using hnew
        rw [this]
        exact hm

lemma update_eq_spec (c : List ℚ) (f e : ℚ) (ns : List ℚ) :
    update_concentration c f e ns = update_concentration_spec c f e ns := by
  induction c generalizing ns with
  | nil => rfl
  | cons x xs ih =>
    cases ns with
    | nil => rw [update_nil_right]; rfl
    | cons n ns' => rw [update_cons, ih]; rfl

lemma inUnit_eq_true (x : ℚ) : inUnit x = true ↔ 0 ≤ x ∧ x ≤ 1 := by
  simp [inUnit]

/-! ### Claims -/

/-- C1: for every input field, every flow rate, every efficiency percentage
(including out-of-range values such as 150) and every noise draw, every cell
of the field returned by `update_concentration` lies in [0, 1]. -/
theorem C1_update_cells_in_unit (c : List ℚ) (f e : ℚ) (ns : List ℚ) :
    ∀ x ∈ update_concentration c f e ns, 0 ≤ x ∧ x ≤ 1 :=
  mem_update_bounds c f e ns

/-- Witness for C1 at the out-of-range efficiency 150: the single produced
cell is 0, which lies in [0, 1]. -/
theorem C1_update_cells_in_unit_witness :
    (0 : ℚ) ∈ update_concentration [1] 2 150 [1 / 20] ∧
      (0 : ℚ) ≤ 0 ∧ (0 : ℚ) ≤ 1 := by
  have hev : update_concentration [1] 2 150 [1 / 20] = [0] := by
    rw [update_cons, update_nil_left]
    norm_num [clip, max_def, min_def]
  have hmem : (0 : ℚ) ∈ update_concentration [1] 2 150 [1 / 20] := by
    rw [hev]
    exact List.mem_singleton_self 0
  exact ⟨hmem, C1_update_cells_in_unit [1] 2 150 [1 / 20] 0 hmem⟩

/-- C2: for every field, flow rate, efficiency and per-cell noise with
entries in [-0.05, 0.05], `update_concentration` computes, cell-wise,
`clip ((cell + flow * noise) * (1 - efficiency / 100)) 0 1`: noise addition,
then the global decay, then the clamp. -/
theorem C2_update_matches_spec (c : List ℚ) (f e : ℚ) (ns : List ℚ)
    (_h : ∀ n ∈ ns, -(1 / 20) ≤ n ∧ n ≤ 1 / 20) :
    update_concentration c f e ns = update_concentration_spec c f e ns :=
  update_eq_spec c f e ns

/-- Witness for C2 at a concrete field, noise draw in range, flow 1 and
efficiency 50. -/
theorem C2_update_matches_spec_witness :
    (∀ n ∈ ([1 / 20] : List ℚ), -(1 / 20) ≤ n ∧ n ≤ 1 / 20) ∧
      update_concentration [1] 1 50 [1 / 20] =
        update_concentration_spec [1] 1 50 [1 / 20] := by
  have hn : ∀ n ∈ ([1 / 20] : List ℚ), -(1 / 20) ≤ n ∧ n ≤ 1 / 20 := by
    intro n hmem
    rw [List.mem_singleton] at hmem
    subst hmem
    norm_num
  exact ⟨hn, C2_update_matches_spec [1] 1 50 [1 / 20] hn⟩

/-- C3: after any sequence of N ticks from the initial session state, the
efficiency and tank-area series have exactly N entries; the flow-rate series
has at most N entries, with exactly N if and only if the flow rate supplied
at each tick differs from the previous tick's flow rate. -/
theorem C3_series_lengths (inputs : List TickInput) :
    (runTicks inputs initState).efficiency_over_time.length = inputs.length ∧
    (runTicks inputs initState).tank_area_impact.length = inputs.length ∧
    (runTicks inputs initState).flow_rate_impact.length ≤ inputs.length ∧
    ((runTicks inputs initState).flow_rate_impact.length = inputs.length ↔
      List.Chain' (· ≠ ·) (inputs.map TickInput.flow_rate)) := by
  refine ⟨?_, ?_, ?_, ?_⟩
  · rw [runTicks_eff_length, initState_eff]
    simp
  · rw [runTicks_tai_length, initState_tai]
    simp
  · have := runTicks_fri_le inputs initState
    rw [initState_fri] at this
    simpa using this
  · cases inputs with
    | nil => simp [runTicks_nil, initState_fri]
    | cons i is =>
      rw [runTicks_cons, runTicks_fri_length_of_last is _ i.flow_rate
        (run_simulation_fri_last _ _ _ _ _ _)]
      have h1 : (run_simulation i.flow_rate i.exchange_efficiency
          i.tank_length i.tank_width i.noise
          initState).flow_rate_impact.length = 1 := by
        rw [run_simulation_fri_length, initState_fri]
        simp
      rw [h1]
      simp only [List.map_cons, List.length_cons]
      rw [← countChanges_eq_length_iff]
      simp only [List.length_map]
      omega

/-- C5: a tick appends to the flow-rate series exactly when the series is
empty or its last entry's flow rate differs from the current one, and a flow
rate that returns to a previously seen value after changing away is appended
again (three ticks with flow rates a, b, a and a ≠ b all append). -/
theorem C5_dedup_adjacent_only (f e tl tw : ℚ) (ns : List ℚ)
    (st : SessionState) :
    ((run_simulation f e tl tw ns st).flow_rate_impact =
        st.flow_rate_impact ++
          [(f, mean (update_concentration st.concentration f e ns))] ↔
      (st.flow_rate_impact = [] ∨
        st.flow_rate_impact.getLast?.map Prod.fst ≠ some f)) ∧
    ∀ a b : ℚ, a ≠ b → st.flow_rate_impact = [] →
      (runTicks [⟨a, e, tl, tw, ns⟩, ⟨b, e, tl, tw, ns⟩, ⟨a, e, tl, tw, ns⟩]
        st).flow_rate_impact.length = 3 := by
  constructor
  · constructor
    · intro heq
      by_contra hcond
      rw [run_simulation_fri, if_neg hcond] at heq
      have := congrArg List.length heq
      simp at this
    · intro hcond
      rw [run_simulation_fri, if_pos hcond]
  · intro a b hab hempty
    rw [runTicks_cons, runTicks_fri_length_of_last _ _ a
      (run_simulation_fri_last _ _ _ _ _ _)]
    have h1 : (run_simulation a e tl tw ns st).flow_rate_impact.length = 1 := by
      rw [run_simulation_fri_length, hempty]
      simp
    rw [h1]
    have hba : b ≠ a := fun hh => hab hh.symm
    simp [countChanges_cons, countChanges_nil, hab, hba]

/-- Witness for C5 at the initial state with flow rates 1, 2, 1: the append
characterization holds and the three ticks produce three entries. -/
theorem C5_dedup_adjacent_only_witness :
    ((run_simulation 1 0 1 1 [] initState).flow_rate_impact =
        initState.flow_rate_impact ++
          [(1, mean (update_concentration initState.concentration 1 0 []))] ↔
      (initState.flow_rate_impact = [] ∨
        initState.flow_rate_impact.getLast?.map Prod.fst ≠ some 1)) ∧
      ((1 : ℚ) ≠ 2 ∧ initState.flow_rate_impact = [] ∧
        (runTicks [⟨1, 0, 1, 1, []⟩, ⟨2, 0, 1, 1, []⟩, ⟨1, 0, 1, 1, []⟩]
          initState).flow_rate_impact.length = 3) :=
  ⟨(C5_dedup_adjacent_only 1 0 1 1 [] initState).1,
    by norm_num, initState_fri,
    (C5_dedup_adjacent_only 1 0 1 1 [] initState).2 1 2 (by norm_num)
      initState_fri⟩

/-- C7: one update with efficiency 100 zeroes every cell (the output is a
list of zeros), and the mean of the resulting field is 0, regardless of the
field, the flow rate and the noise. -/
theorem C7_full_efficiency_zeroes (c : List ℚ) (f : ℚ) (ns : List ℚ) :
    update_concentration c f 100 ns =
      List.replicate (min c.length ns.length) 0 ∧
    mean (update_concentration c f 100 ns) = 0 := by
  have hz : update_concentration c f 100 ns =
      List.replicate (min c.length ns.length) 0 := by
    induction c generalizing ns with
    | nil => simp [update_nil_left]
    | cons x xs ih =>
      cases ns with
      | nil => simp [update_nil_right]
      | cons n ns' =>
        rw [update_cons]
        have hcell : (x + f * n) * (1 - 100 / 100) = 0 := by ring
        have hclip : clip ((x + f * n) * (1 - 100 / 100)) 0 1 = 0 := by
          rw [hcell]
          unfold clip
          rw [max_self]
          exact min_eq_right (by norm_num)
        rw [hclip, ih]
        simp [List.length_cons, Nat.succ_min_succ, List.replicate_succ]
  refine ⟨hz, ?_⟩
  rw [hz]
  simp [mean, List.sum_replicate]

/-- C9: starting from the initial session state, the recorded time stamps of
the efficiency series are exactly the consecutive integers 1, 2, ..., N (the
counter is incremented before recording), and 0 never appears as a recorded
time stamp. -/
theorem C9_timestamps_consecutive (inputs : List TickInput) :
    (runTicks inputs initState).efficiency_over_time.map Prod.fst =
      List.range' 1 inputs.length ∧
    0 ∉ (runTicks inputs initState).efficiency_over_time.map Prod.fst := by
  have h : (runTicks inputs initState).efficiency_over_time.map Prod.fst =
      List.range' 1 inputs.length := by
    have hm := runTicks_eff_map inputs initState
    rw [initState_eff, initState_time_step] at hm
    simpa using hm
  refine ⟨h, ?_⟩
  rw [h]
  intro hmem
  rw [List.mem_range'_1] at hmem
  omega

/-- C10: every average-concentration value stored in any entry of any of the
three series lies in [0, 1], after every tick of every session that starts
from the initial state. -/
theorem C10_recorded_averages_in_unit (inputs : List TickInput) :
    ((runTicks inputs initState).efficiency_over_time.all
      fun p => inUnit p.2) = true ∧
    ((runTicks inputs initState).flow_rate_impact.all
      fun p => inUnit p.2) = true ∧
    ((runTicks inputs initState).tank_area_impact.all
      fun p => inUnit p.2) = true := by
  obtain ⟨h1, h2, h3⟩ := runTicks_series_bounds inputs initState
    (by intro p hp; rw [initState_eff] at hp; simp at hp)
    (by intro p hp; rw [initState_fri] at hp; simp at hp)
    (by intro p hp; rw [initState_tai] at hp; simp at hp)
  refine ⟨?_, ?_, ?_⟩
  · rw [List.all_eq_true]
    intro p hp
    rw [inUnit_eq_true]
    exact h1 p hp
  · rw [List.all_eq_true]
    intro p hp
    rw [inUnit_eq_true]
    exact h2 p hp
  · rw [List.all_eq_true]
    intro p hp
    rw [inUnit_eq_true]
    exact h3 p hp

lemma clip_zero : clip (0 : ℚ) 0 1 = 0 := by
  unfold clip
  rw [max_self]
  exact min_eq_right (by norm_num)

/-- C4 as stated is false: from a session state whose flow-rate series
already ends with an entry for flow rate 1, one further tick (K = 1) at flow
rate 1 grows the series by 0 entries, not 1. -/
theorem C4_dedup_growth_counterexample :
    1 ≤ ([⟨1, 0, 1, 1, [0]⟩] : List TickInput).length ∧
    (∀ i ∈ ([⟨1, 0, 1, 1, [0]⟩] : List TickInput), i.flow_rate = 1) ∧
    (runTicks [⟨1, 0, 1, 1, [0]⟩]
        ⟨[1], 0, [], [(1, 1)], []⟩).flow_rate_impact.length ≠
      (⟨[1], 0, [], [(1, 1)], []⟩ : SessionState).flow_rate_impact.length + 1 := by
  refine ⟨by simp, ?_, ?_⟩
  · intro i hi
    rw [List.mem_singleton] at hi
    subst hi
    rfl
  · rw [runTicks_cons, runTicks_nil, run_simulation_fri_length]
    have hlast : (⟨[1], 0, [], [(1, 1)], []⟩ :
        SessionState).flow_rate_impact.getLast?.map Prod.fst = some 1 := rfl
    rw [hlast, if_pos rfl]
    simp

/-- C4 (amended): if the flow rate is held at one identical value v for
K ≥ 1 consecutive ticks, the flow-rate series grows by exactly 1 entry when
the series was empty or its last entry's flow rate differed from v before
those ticks, and by exactly 0 entries when its last entry's flow rate was
already v. -/
theorem C4_dedup_growth (st : SessionState) (inputs : List TickInput) (v : ℚ)
    (hK : 1 ≤ inputs.length) (hall : ∀ i ∈ inputs, i.flow_rate = v) :
    (runTicks inputs st).flow_rate_impact.length =
      st.flow_rate_impact.length +
        (if st.flow_rate_impact.getLast?.map Prod.fst = some v
          then 0 else 1) := by
  cases inputs with
  | nil => simp at hK
  | cons i is =>
    have hf : i.flow_rate = v := hall i (List.mem_cons_self i is)
    rw [runTicks_cons,
      runTicks_fri_unchanged is _ v
        (by rw [run_simulation_fri_last, hf])
        (fun j hj => hall j (List.mem_cons_of_mem i hj)),
      run_simulation_fri_length, hf]

/-- Witness for C4 (amended): two ticks at flow rate 1 from the initial
state (whose flow-rate series is empty) grow the series by exactly 1. -/
theorem C4_dedup_growth_witness :
    1 ≤ ([⟨1, 0, 50, 20, []⟩, ⟨1, 0, 50, 20, []⟩] : List TickInput).length ∧
    (∀ i ∈ ([⟨1, 0, 50, 20, []⟩, ⟨1, 0, 50, 20, []⟩] : List TickInput),
      i.flow_rate = 1) ∧
    (runTicks [⟨1, 0, 50, 20, []⟩, ⟨1, 0, 50, 20, []⟩]
        initState).flow_rate_impact.length =
      initState.flow_rate_impact.length +
        (if initState.flow_rate_impact.getLast?.map Prod.fst = some 1
          then 0 else 1) := by
  have hall : ∀ i ∈ ([⟨1, 0, 50, 20, []⟩, ⟨1, 0, 50, 20, []⟩] :
      List TickInput), i.flow_rate = 1 := by
    intro i hi
    rcases List.mem_cons.mp hi with h | h
    · subst h; rfl
    · rw [List.mem_singleton] at h
      subst h
      rfl
  exact ⟨by simp, hall, C4_dedup_growth initState _ 1 (by simp) hall⟩

/-- C6 as stated is false: on the input field [0] with zero noise, efficiency
0 and efficiency 50 both produce the cell 0, whose magnitude is not strictly
smaller than itself. -/
theorem C6_decay_monotonicity_counterexample :
    ¬ (∀ x ∈ update_concentration [0] 1 50 (List.replicate 1 0),
        ∀ y ∈ update_concentration [0] 1 0 (List.replicate 1 0),
          |x| < |y|) := by
  intro hmono
  have hr : List.replicate 1 (0 : ℚ) = [0] := rfl
  have h2 : update_concentration [0] 1 50 (List.replicate 1 0) = [0] := by
    rw [hr, update_cons, update_nil_left]
    have hcell : ((0 : ℚ) + 1 * 0) * (1 - 50 / 100) = 0 := by ring
    rw [hcell, clip_zero]
  have h1 : update_concentration [0] 1 0 (List.replicate 1 0) = [0] := by
    rw [hr, update_cons, update_nil_left]
    have hcell : ((0 : ℚ) + 1 * 0) * (1 - 0 / 100) = 0 := by ring
    rw [hcell, clip_zero]
  have hm2 : (0 : ℚ) ∈ update_concentration [0] 1 50 (List.replicate 1 0) := by
    rw [h2]
    exact List.mem_singleton_self 0
  have hm1 : (0 : ℚ) ∈ update_concentration [0] 1 0 (List.replicate 1 0) := by
    rw [h1]
    exact List.mem_singleton_self 0
  have := hmono 0 hm2 0 hm1
  simp at this

/-- C6 (amended): with zero noise and every cell of the input field strictly
positive and at most 1, increasing the efficiency from e1 to e2 within
[0, 100] strictly decreases every cell's magnitude: the fields produced with
e2 and with e1 are pointwise related by strict inequality of magnitudes. -/
theorem C6_decay_monotonicity (c : List ℚ) (f e1 e2 : ℚ)
    (h1 : 0 ≤ e1) (h2 : e1 < e2) (h3 : e2 ≤ 100)
    (hc : ∀ x ∈ c, 0 < x ∧ x ≤ 1) :
    List.Forall₂ (fun y x => |y| < |x|)
      (update_concentration c f e2 (List.replicate c.length 0))
      (update_concentration c f e1 (List.replicate c.length 0)) := by
  induction c with
  | nil => rw [update_nil_left, update_nil_left]; exact List.Forall₂.nil
  | cons x xs ih =>
    simp only [List.length_cons, List.replicate_succ]
    rw [update_cons, update_cons]
    have hx := hc x (List.mem_cons_self x xs)
    refine List.Forall₂.cons ?_ (ih fun y hy => hc y (List.mem_cons_of_mem x hy))
    have hcell : x + f * 0 = x := by ring
    rw [hcell]
    have ht2 : (0 : ℚ) ≤ 1 - e2 / 100 := by linarith
    have ht1 : (0 : ℚ) < 1 - e1 / 100 := by linarith
    have htlt : 1 - e2 / 100 < 1 - e1 / 100 := by linarith
    have hv1 : 0 ≤ x * (1 - e1 / 100) := mul_nonneg hx.1.le ht1.le
    have hv1' : x * (1 - e1 / 100) ≤ 1 := by nlinarith [hx.1, hx.2]
    have hv2 : 0 ≤ x * (1 - e2 / 100) := mul_nonneg hx.1.le ht2
    have hv2' : x * (1 - e2 / 100) ≤ 1 := by nlinarith [hx.1, hx.2]
    rw [clip_eq_self hv2 hv2', clip_eq_self hv1 hv1',
      abs_of_nonneg hv2, abs_of_nonneg hv1]
    exact mul_lt_mul_of_pos_left htlt hx.1

/-- Witness for C6 (amended) at the field [1/2] with efficiencies 0 and
50. -/
theorem C6_decay_monotonicity_witness :
    (0 : ℚ) ≤ 0 ∧ (0 : ℚ) < 50 ∧ (50 : ℚ) ≤ 100 ∧
    (∀ x ∈ ([1 / 2] : List ℚ), 0 < x ∧ x ≤ 1) ∧
    List.Forall₂ (fun y x => |y| < |x|)
      (update_concentration [1 / 2] 1 50
        (List.replicate ([1 / 2] : List ℚ).length 0))
      (update_concentration [1 / 2] 1 0
        (List.replicate ([1 / 2] : List ℚ).length 0)) := by
  have hc : ∀ x ∈ ([1 / 2] : List ℚ), 0 < x ∧ x ≤ 1 := by
    intro x hx
    rw [List.mem_singleton] at hx
    subst hx
    norm_num
  exact ⟨by norm_num, by norm_num, by norm_num, hc,
    C6_decay_monotonicity [1 / 2] 1 0 50 (by norm_num) (by norm_num)
      (by norm_num) hc⟩

/-- C8: with efficiency 0 and flow rate 0 the update is the identity on every
field whose cells lie in [0, 1] (with a matching-shape noise draw), and a
session of such ticks from the initial all-ones state leaves the field
unchanged and records average concentration 1 at every tick. -/
theorem C8_identity_at_zero (c ns : List ℚ) (hlen : ns.length = c.length)
    (hc : ∀ x ∈ c, 0 ≤ x ∧ x ≤ 1) (inputs : List TickInput)
    (hin : ∀ i ∈ inputs,
      i.flow_rate = 0 ∧ i.exchange_efficiency = 0 ∧ i.noise.length = 10000) :
    update_concentration c 0 0 ns = c ∧
    (runTicks inputs initState).concentration = initState.concentration ∧
    ∀ p ∈ (runTicks inputs initState).efficiency_over_time, p.2 = 1 := by
  refine ⟨update_id hlen hc, ?_, ?_⟩
  · obtain ⟨h1, -⟩ := runTicks_ones inputs initState initState_concentration hin
    rw [h1, initState_concentration]
  · obtain ⟨-, h2⟩ := runTicks_ones inputs initState initState_concentration hin
    intro p hp
    rcases h2 p hp with hmem | hval
    · rw [initState_eff] at hmem
      simp at hmem
    · exact hval

/-- Witness for C8 at a one-cell field and a single zero-parameter tick. -/
theorem C8_identity_at_zero_witness :
    ([(0 : ℚ)] : List ℚ).length = ([1 / 2] : List ℚ).length ∧
    (∀ x ∈ ([1 / 2] : List ℚ), 0 ≤ x ∧ x ≤ 1) ∧
    (∀ i ∈ ([⟨0, 0, 50, 20, List.replicate 10000 0⟩] : List TickInput),
      i.flow_rate = 0 ∧ i.exchange_efficiency = 0 ∧ i.noise.length = 10000) ∧
    (update_concentration [1 / 2] 0 0 [0] = [1 / 2] ∧
      (runTicks [⟨0, 0, 50, 20, List.replicate 10000 0⟩]
          initState).concentration = initState.concentration ∧
      ∀ p ∈ (runTicks [⟨0, 0, 50, 20, List.replicate 10000 0⟩]
          initState).efficiency_over_time, p.2 = 1) := by
  have hc : ∀ x ∈ ([1 / 2] : List ℚ), 0 ≤ x ∧ x ≤ 1 := by
    intro x hx
    rw [List.mem_singleton] at hx
    subst hx
    norm_num
  have hin : ∀ i ∈ ([⟨0, 0, 50, 20, List.replicate 10000 0⟩] :
      List TickInput),
      i.flow_rate = 0 ∧ i.exchange_efficiency = 0 ∧ i.noise.length = 10000 := by
    intro i hi
    rw [List.mem_singleton] at hi
    subst hi
    exact ⟨rfl, rfl, List.length_replicate 10000 0⟩
  exact ⟨rfl, hc, hin, C8_identity_at_zero [1 / 2] [0] rfl hc _ hin⟩

end Ballast
